import Mathlib

/-!
# Scrapper-GoRoutine: `fetchTitle` and `main`

A shallow embedding of `main.go`.

* `fetchTitle` is embedded as the sequence of calls it makes (`Event`), the
  deferred calls running last-deferred-first when the function returns.
* `http.Get` and `goquery.NewDocumentFromReader` are capabilities of the
  environment (`Env`): the program only inspects what they return.
* `doc.Find("title").Text()` is embedded over a first-child / next-sibling node
  tree, the shape of `html.Node`, following the loops of cascadia's `MatchAll`
  and goquery's `Find` and `Text`.
* `main` and its goroutines are embedded as a transition system (`step`): a
  schedule picks which goroutine makes its next call. `wg.Add(1)` and the `go`
  statement are two steps of `main`; one turn of `for result := range results`,
  the receive and the `fmt.Println` of what was received, is one step. A send
  on a full buffer and `wg.Wait()` on a non-zero counter cannot move; a send on
  a closed channel, a second `close` and a negative counter are panics
  (`Fault`).
-/

namespace Scrapper

/-! ## Data model -/

/-- The `Type` field of an `html.Node`. -/
inductive NodeType where
  | text
  | document
  | element
  | comment
  | doctype
deriving DecidableEq, Repr

/-- An `*html.Node`: `nil`, or a node with its `Type`, `Data`, `FirstChild` and
`NextSibling`. -/
inductive Node where
  | nil
  | node (type : NodeType) (data : String) (firstChild : Node) (nextSibling : Node)
deriving DecidableEq, Repr

/-- The response stream `req.Body`, named by the bytes the server sent. What
reading and parsing it yields is decided by `Env.newDocumentFromReader`. -/
abbrev Body := String

/-- The fields of `http.Response` that `fetchTitle` reads. -/
structure Response where
  StatusCode : Int
  Status : String
  Body : Body
deriving DecidableEq, Repr

/-- The two external calls whose result `fetchTitle` branches on. An `error` is
carried as the text of its `Error()` method, which is what `%v` prints. -/
structure Env where
  /-- The call `http.Get(url)`. -/
  httpGet : String → Except String Response
  /-- The call `goquery.NewDocumentFromReader(req.Body)`; the document is given by its root node. -/
  newDocumentFromReader : Body → Except String Node

/-! ## `doc.Find("title").Text()` -/

/-- The compiled selector `"title"`: an element node whose tag is `title`. -/
def matchTitle (type : NodeType) (data : String) : Bool :=
  type = NodeType.element && data = "title"

/-- The loop `for c := n; c != nil; c = c.NextSibling` of cascadia's `MatchAll`,
with `MatchAll` unfolded in its body: `c` is appended when it matches, then its
children are visited, then the next sibling. -/
def matchChain : Node → List Node → List Node
  | .nil, storage => storage
  | .node type data firstChild nextSibling, storage =>
    let storage := if matchTitle type data then
        storage ++ [Node.node type data firstChild nextSibling] else storage
    matchChain nextSibling (matchChain firstChild storage)

/-- Cascadia's `MatchAll(n)`: `n` itself when it matches, then the matches among
its descendants, in document order. -/
def matchAll : Node → List Node
  | .nil => []
  | .node type data firstChild nextSibling =>
    matchChain firstChild
      (if matchTitle type data then [Node.node type data firstChild nextSibling] else [])

/-- The loop of goquery's `findWithMatcher` over the children of the node searched
from: only element children are handed to `MatchAll`. -/
def findChain : Node → List Node
  | .nil => []
  | .node type data firstChild nextSibling =>
    (if type = NodeType.element then matchAll (Node.node type data firstChild nextSibling)
      else []) ++ findChain nextSibling

/-- The call `doc.Find("title")` on the document with root `root`: the nodes of the
resulting selection. -/
def find : Node → List Node
  | .nil => []
  | .node _ _ firstChild _ => findChain firstChild

/-- The loop `for c := n; c != nil; c = c.NextSibling` of goquery's `Text`, with the
closure `f` unfolded in its body: the data of a text node is written to the
buffer, then its children are visited, then the next sibling. -/
def writeChain : Node → String → String
  | .nil, buf => buf
  | .node type data firstChild nextSibling, buf =>
    writeChain nextSibling
      (writeChain firstChild (if type = NodeType.text then buf ++ data else buf))

/-- The closure `f` of goquery's `Text` applied to one node of the selection. -/
def writeNode : Node → String → String
  | .nil, buf => buf
  | .node type data firstChild _, buf =>
    writeChain firstChild (if type = NodeType.text then buf ++ data else buf)

/-- The method `Selection.Text()`: `f` is run on every node of the selection, all
writing to one buffer. -/
def text (nodes : List Node) : String :=
  nodes.foldl (fun buf n => writeNode n buf) ""

/-- The text content of one element: what `Text()` gives for the selection holding
only that element. -/
def textContent (n : Node) : String :=
  writeNode n ""

/-! ## `fetchTitle` -/

/-- The calls `fetchTitle` makes. -/
inductive Event where
  /-- The call `http.Get(url)`. -/
  | httpGet (url : String)
  /-- The call `goquery.NewDocumentFromReader(req.Body)`. -/
  | newDocument
  /-- The call `doc.Find("title").Text()`. -/
  | findText
  /-- The statement `results <- msg`. -/
  | send (msg : String)
  /-- The call `req.Body.Close()`. -/
  | bodyClose
  /-- The call `wg.Done()`. -/
  | wgDone
deriving DecidableEq, Repr

/-- The string `fmt.Sprintf("Erro ao acessar %s: %v", url, err)`. -/
def transportErrorMsg (url err : String) : String :=
  "Erro ao acessar " ++ url ++ ": " ++ err

/-- The string `fmt.Sprintf("Erro ao acessar %s: status %d %s", url, req.StatusCode, req.Status)`. -/
def statusErrorMsg (url : String) (statusCode : Int) (status : String) : String :=
  "Erro ao acessar " ++ url ++ ": status " ++ toString statusCode ++ " " ++ status

/-- The string `fmt.Sprintf("Erro ao carregar documento de %s: %v", url, err)`. -/
def parseErrorMsg (url err : String) : String :=
  "Erro ao carregar documento de " ++ url ++ ": " ++ err

/-- The string `fmt.Sprintf("Título de %s: %s", url, title)`. -/
def titleMsg (url title : String) : String :=
  "Título de " ++ url ++ ": " ++ title

/-- The body of `fetchTitle` up to its `return`: the calls made, in order, and the
stack of deferred calls at that point, the last deferred on top. -/
def fetchTitleBody (env : Env) (url : String) : List Event × List Event :=
  let deferred := [Event.wgDone]
  match env.httpGet url with
  | .error err => ([.httpGet url, .send (transportErrorMsg url err)], deferred)
  | .ok req =>
    let deferred := Event.bodyClose :: deferred
    if req.StatusCode ≠ 200 then
      ([.httpGet url, .send (statusErrorMsg url req.StatusCode req.Status)], deferred)
    else
      match env.newDocumentFromReader req.Body with
      | .error err => ([.httpGet url, .newDocument, .send (parseErrorMsg url err)], deferred)
      | .ok doc =>
        let title := text (find doc)
        ([.httpGet url, .newDocument, .findText, .send (titleMsg url title)], deferred)

/-- One run of `fetchTitle(url, wg, results)`: the calls of the body, then the
deferred calls popped from their stack. -/
def fetchTitle (env : Env) (url : String) : List Event :=
  (fetchTitleBody env url).1 ++ (fetchTitleBody env url).2

/-- The strings written to `results` in a sequence of calls. -/
def written (calls : List Event) : List String :=
  calls.filterMap fun e => match e with
    | .send msg => some msg
    | _ => none

/-- The string `fetchTitle` writes to `results` for `url`: the argument of the
`results <-` statement on the path taken. -/
def outcome (env : Env) (url : String) : String :=
  match env.httpGet url with
  | .error err => transportErrorMsg url err
  | .ok req =>
    if req.StatusCode ≠ 200 then statusErrorMsg url req.StatusCode req.Status
    else
      match env.newDocumentFromReader req.Body with
      | .error err => parseErrorMsg url err
      | .ok doc => titleMsg url (text (find doc))

/-! ## `main` and its goroutines -/

/-- Where `main` stands. -/
inductive MainPc where
  /-- At the head of `for _, url := range urls`, about to take `urls[i]`. -/
  | loop (i : Nat)
  /-- After `wg.Add(1)` for `urls[i]`, about to run the `go` statement. -/
  | spawn (i : Nat)
  /-- At `wg.Wait()`. -/
  | wait
  /-- At `close(results)`. -/
  | close
  /-- In `for result := range results`. -/
  | drain
  /-- The function `main` has returned and the process has ended. -/
  | exited
deriving DecidableEq, Repr

/-- The run-time panics of the channel and WaitGroup operations used. -/
inductive Fault where
  /-- A send on a closed channel. -/
  | sendOnClosed
  /-- A close of a closed channel. -/
  | closeOfClosed
  /-- A WaitGroup counter below zero. -/
  | negativeCounter
deriving DecidableEq, Repr

/-- The channel `results`: `make(chan string, cap)`. -/
structure Chan where
  cap : Nat
  buf : List String
  closed : Bool
deriving DecidableEq, Repr

/-- A state of the running program. -/
structure State where
  /-- The position of `main`. -/
  pc : MainPc
  /-- The counter of the WaitGroup `wg`. -/
  wg : Int
  /-- The channel `results`. -/
  results : Chan
  /-- For each goroutine started, in order of start, the calls it has still to make. -/
  workers : List (List Event)
  /-- The lines printed by `fmt.Println`. -/
  stdout : List String
  /-- The panic that ended the program, if any. -/
  fault : Option Fault
  /-- History: the goroutines whose send on `results` has completed, one entry a send. -/
  writers : List Nat
deriving DecidableEq, Repr

/-- The state after `var wg sync.WaitGroup` and
`results := make(chan string, len(urls))`. -/
def init (urls : List String) : State where
  pc := .loop 0
  wg := 0
  results := { cap := urls.length, buf := [], closed := false }
  workers := []
  stdout := []
  fault := none
  writers := []

/-- The next statement of `main`; `none` when `main` is blocked or has returned. -/
def stepMain (env : Env) (urls : List String) (s : State) : Option State :=
  match s.pc with
  | .loop i =>
    match urls[i]? with
    | some _ => some { s with wg := s.wg + 1, pc := .spawn i }
    | none => some { s with pc := .wait }
  | .spawn i =>
    match urls[i]? with
    | some url => some { s with workers := s.workers ++ [fetchTitle env url], pc := .loop (i + 1) }
    | none => none
  | .wait => if s.wg = 0 then some { s with pc := .close } else none
  | .close =>
    if s.results.closed then some { s with fault := some .closeOfClosed }
    else some { s with results := { s.results with closed := true }, pc := .drain }
  | .drain =>
    match s.results.buf with
    | msg :: rest =>
      some { s with results := { s.results with buf := rest }, stdout := s.stdout ++ [msg] }
    | [] => if s.results.closed then some { s with pc := .exited } else none
  | .exited => none

/-- The next call of goroutine `k`; `none` when it is blocked, has returned or was
never started. A send panics on a closed channel, completes when the buffer has
room or when `main` is parked in its receive on an empty buffer, and blocks
otherwise. -/
def stepWorker (s : State) (k : Nat) : Option State :=
  match s.workers[k]? with
  | none => none
  | some [] => none
  | some (.send msg :: rest) =>
    if s.results.closed then some { s with fault := some .sendOnClosed }
    else if s.results.buf.length < s.results.cap then
      some { s with results := { s.results with buf := s.results.buf ++ [msg] },
                    workers := s.workers.set k rest, writers := s.writers ++ [k] }
    else if s.pc = .drain ∧ s.results.buf = [] then
      some { s with stdout := s.stdout ++ [msg],
                    workers := s.workers.set k rest, writers := s.writers ++ [k] }
    else none
  | some (.wgDone :: rest) =>
    if s.wg - 1 < 0 then some { s with fault := some .negativeCounter }
    else some { s with wg := s.wg - 1, workers := s.workers.set k rest }
  | some (_ :: rest) => some { s with workers := s.workers.set k rest }

/-- One step of the program: thread `0` is `main`, thread `k + 1` is the goroutine
started for `urls[k]`. Nothing runs after a panic or after `main` has returned. -/
def step (env : Env) (urls : List String) (s : State) (tid : Nat) : Option State :=
  if s.fault ≠ none ∨ s.pc = .exited then none
  else
    match tid with
    | 0 => stepMain env urls s
    | k + 1 => stepWorker s k

/-- Runs the threads in the order the schedule names them; `none` when the
schedule names a thread that cannot move. -/
def run (env : Env) (urls : List String) (s : State) : List Nat → Option State
  | [] => some s
  | tid :: sched => (step env urls s tid).bind fun s' => run env urls s' sched

/-- The program run from its start under a schedule. -/
def exec (env : Env) (urls : List String) (sched : List Nat) : Option State :=
  run env urls (init urls) sched

/-- The goroutine's next call is its send on `results`. -/
def atSend (s : State) (k : Nat) : Prop :=
  ∃ msg rest, s.workers[k]? = some (Event.send msg :: rest)

/-! ## Invariant and termination measure of the transition system -/

/-- The number of goroutines started once `main` stands at a position. -/
def spawnedAt (urls : List String) : MainPc → Nat
  | .loop i => i
  | .spawn i => i
  | _ => urls.length

/-- The positions of `main` up to and including `close(results)`. -/
def beforeClose : MainPc → Bool
  | .loop _ => true
  | .spawn _ => true
  | .wait => true
  | .close => true
  | _ => false

/-- The positions of `main` after `wg.Wait()` has returned. -/
def afterWait : MainPc → Bool
  | .close => true
  | .drain => true
  | .exited => true
  | _ => false

/-- The `wg.Add(1)` already made for a goroutine not yet started. -/
def addPending : MainPc → Nat
  | .spawn _ => 1
  | _ => 0

/-- What holds in every state the program reaches. -/
structure Inv (env : Env) (urls : List String) (s : State) : Prop where
  noFault : s.fault = none
  capEq : s.results.cap = urls.length
  spawned : s.workers.length = spawnedAt urls s.pc
  spawnedLe : s.workers.length ≤ urls.length
  spawnLt : ∀ i, s.pc = .spawn i → i < urls.length
  counter : s.wg = ((s.workers.map (List.count Event.wgDone)).sum + addPending s.pc : Nat)
  shape : ∀ r ∈ s.workers, (r = [] ∨ r.getLast? = some Event.wgDone) ∧ (written r).length ≤ 1
  msgs : List.Perm (s.stdout ++ s.results.buf ++ (s.workers.map written).flatten)
    ((urls.take s.workers.length).map (outcome env))
  notClosed : beforeClose s.pc = true → s.results.closed = false ∧ s.stdout = []
  isClosed : beforeClose s.pc = false → s.results.closed = true
  finished : afterWait s.pc = true → ∀ r ∈ s.workers, r = []
  drained : s.pc = .exited → s.results.buf = []
  writersNodup : s.writers.Nodup
  writersDone : ∀ k ∈ s.writers, ∃ r, s.workers[k]? = some r ∧ written r = []
  writersCount : s.writers.length = s.stdout.length + s.results.buf.length

/-- The state after goroutine `k` has made the call `e` and has `rest` still to
make: a `wg.Done` lowers the counter, a send appends its string to the buffer and
is recorded in the history. -/
def pop (s : State) (k : Nat) (e : Event) (rest : List Event) : State :=
  { s with
    wg := s.wg - ([e].count Event.wgDone : Nat)
    results := { s.results with buf := s.results.buf ++ written [e] }
    workers := s.workers.set k rest
    writers := s.writers ++ (written [e]).map fun _ => k }

/-- Twice the number of calls the goroutines for `urls[i]`, `urls[i+1]`, ... will make. -/
def unspawnedWeight (env : Env) (urls : List String) (i : Nat) : Nat :=
  2 * ((urls.drop i).map fun u => (fetchTitle env u).length).sum

/-- The weight of what `main` has still to do, the goroutines it has still to
start included. -/
def mainWeight (env : Env) (urls : List String) : MainPc → Nat
  | .loop i => 2 * (urls.length - i) + 4 + unspawnedWeight env urls i
  | .spawn i => 2 * (urls.length - i) + 3 + unspawnedWeight env urls i
  | .wait => 3
  | .close => 2
  | .drain => 1
  | .exited => 0

/-- A number that every step of the program lowers. -/
def measure (env : Env) (urls : List String) (s : State) : Nat :=
  mainWeight env urls s.pc + 2 * (s.workers.map List.length).sum + s.results.buf.length
    + (if s.fault = none then 1 else 0)

/-! ## Sample environments -/

/-- A page whose head holds one `title` element with text `X`. -/
def pageX : Node :=
  .node .document "" (.node .element "html" (.node .element "head"
    (.node .element "title" (.node .text "X" .nil .nil) .nil) .nil) .nil) .nil

/-- A page whose head holds two `title` elements, with texts `A` and `B`. -/
def pageAB : Node :=
  .node .document "" (.node .element "html" (.node .element "head"
    (.node .element "title" (.node .text "A" .nil .nil)
      (.node .element "title" (.node .text "B" .nil .nil) .nil)) .nil) .nil) .nil

/-- A page with a body and no `title` element. -/
def pageNoTitle : Node :=
  .node .document "" (.node .element "html" (.node .element "head" .nil
    (.node .element "body" (.node .text "hello" .nil .nil) .nil)) .nil) .nil

/-- The scenario of the specification, extended: `a` serves `pageX`, `b` refuses
the connection, `c` answers 404, `d` serves a stream that cannot be read, `e`
serves `pageAB`, `f` serves `pageNoTitle`, `g` answers 204. -/
def sampleEnv : Env where
  httpGet url :=
    if url = "a" then .ok ⟨200, "200 OK", "<title>X</title>"⟩
    else if url = "c" then .ok ⟨404, "404 Not Found", "gone"⟩
    else if url = "d" then .ok ⟨200, "200 OK", "broken"⟩
    else if url = "e" then .ok ⟨200, "200 OK", "<title>A</title><title>B</title>"⟩
    else if url = "f" then .ok ⟨200, "200 OK", "<body>hello</body>"⟩
    else if url = "g" then .ok ⟨204, "204 No Content", ""⟩
    else .error "connection refused"
  newDocumentFromReader body :=
    if body = "<title>X</title>" then .ok pageX
    else if body = "<title>A</title><title>B</title>" then .ok pageAB
    else if body = "<body>hello</body>" then .ok pageNoTitle
    else .error "unexpected EOF"

/-- The targets of the scenario of the specification. -/
def sampleUrls : List String := ["a", "b", "c"]

/-- A schedule: `main` starts the goroutines for `a` and `b`; the one for `b` runs
up to and including its send; the one for `a` runs up to its send. -/
def scheduleAtSend : List Nat := [0, 0, 0, 0, 2, 2, 1, 1, 1]

/-- The state `scheduleAtSend` leads to. -/
def stateAtSend : State where
  pc := .loop 2
  wg := 2
  results := { cap := 3, buf := ["Erro ao acessar b: connection refused"], closed := false }
  workers := [[.send "Título de a: X", .bodyClose, .wgDone], [.wgDone]]
  stdout := []
  fault := none
  writers := [1]

/-- A schedule: `main` starts the three goroutines; they finish in the order `b`,
`c`, `a`; `main` passes the barrier, closes the channel and prints two lines. -/
def scheduleDraining : List Nat :=
  [0, 0, 0, 0, 0, 0, 0, 2, 2, 2, 3, 3, 1, 1, 1, 1, 3, 3, 1, 1, 0, 0, 0, 0]

/-- The state `scheduleDraining` leads to. -/
def stateDraining : State where
  pc := .drain
  wg := 0
  results := { cap := 3, buf := ["Título de a: X"], closed := true }
  workers := [[], [], []]
  stdout := ["Erro ao acessar b: connection refused", "Erro ao acessar c: status 404 404 Not Found"]
  fault := none
  writers := [1, 2, 0]

/-- The schedule `scheduleDraining` continued until `main` returns. -/
def scheduleDone : List Nat := scheduleDraining ++ [0, 0]

/-- The state `scheduleDone` leads to. -/
def stateDone : State where
  pc := .exited
  wg := 0
  results := { cap := 3, buf := [], closed := true }
  workers := [[], [], []]
  stdout := ["Erro ao acessar b: connection refused", "Erro ao acessar c: status 404 404 Not Found",
    "Título de a: X"]
  fault := none
  writers := [1, 2, 0]

/-! ## The four paths of `fetchTitle` -/

theorem fetchTitle_of_error {env : Env} {url d : String} (hget : env.httpGet url = .error d) :
    fetchTitle env url = [.httpGet url, .send (transportErrorMsg url d), .wgDone] := by
  simp [fetchTitle, fetchTitleBody, hget]

theorem fetchTitle_of_status {env : Env} {url : String} {req : Response}
    (hget : env.httpGet url = .ok req) (hcode : req.StatusCode ≠ 200) :
    fetchTitle env url =
      [.httpGet url, .send (statusErrorMsg url req.StatusCode req.Status), .bodyClose, .wgDone] := by
  simp [fetchTitle, fetchTitleBody, hget, hcode]

theorem fetchTitle_of_parse_error {env : Env} {url d : String} {req : Response}
    (hget : env.httpGet url = .ok req) (hcode : req.StatusCode = 200)
    (hparse : env.newDocumentFromReader req.Body = .error d) :
    fetchTitle env url =
      [.httpGet url, .newDocument, .send (parseErrorMsg url d), .bodyClose, .wgDone] := by
  simp [fetchTitle, fetchTitleBody, hget, hcode, hparse]

theorem fetchTitle_of_document {env : Env} {url : String} {req : Response} {doc : Node}
    (hget : env.httpGet url = .ok req) (hcode : req.StatusCode = 200)
    (hparse : env.newDocumentFromReader req.Body = .ok doc) :
    fetchTitle env url =
      [.httpGet url, .newDocument, .findText, .send (titleMsg url (text (find doc))),
        .bodyClose, .wgDone] := by
  simp [fetchTitle, fetchTitleBody, hget, hcode, hparse]

/-- Every run of `fetchTitle` is the calls of its body followed by `wg.Done()`, and
the body writes the outcome once. -/
theorem fetchTitle_shape (env : Env) (url : String) :
    ∃ body, fetchTitle env url = body ++ [Event.wgDone] ∧ Event.wgDone ∉ body ∧
      written body = [outcome env url] := by
  unfold outcome
  cases hget : env.httpGet url with
  | error d =>
    refine ⟨[.httpGet url, .send (transportErrorMsg url d)], ?_, ?_, ?_⟩
    · rw [fetchTitle_of_error hget]; rfl
    · simp
    · simp [written]
  | ok req =>
    by_cases hcode : req.StatusCode = 200
    · cases hparse : env.newDocumentFromReader req.Body with
      | error d =>
        refine ⟨[.httpGet url, .newDocument, .send (parseErrorMsg url d), .bodyClose], ?_, ?_, ?_⟩
        · rw [fetchTitle_of_parse_error hget hcode hparse]; rfl
        · simp
        · simp [written, hcode, hparse]
      | ok doc =>
        refine ⟨[.httpGet url, .newDocument, .findText, .send (titleMsg url (text (find doc))),
          .bodyClose], ?_, ?_, ?_⟩
        · rw [fetchTitle_of_document hget hcode hparse]; rfl
        · simp
        · simp [written, hcode, hparse]
    · refine ⟨[.httpGet url, .send (statusErrorMsg url req.StatusCode req.Status), .bodyClose],
        ?_, ?_, ?_⟩
      · rw [fetchTitle_of_status hget hcode]; rfl
      · simp
      · simp [written, hcode]

theorem written_fetchTitle (env : Env) (url : String) :
    written (fetchTitle env url) = [outcome env url] := by
  obtain ⟨body, hb, -, hw⟩ := fetchTitle_shape env url
  rw [hb]
  simp [written] at hw ⊢
  exact hw

theorem length_fetchTitle_le (env : Env) (url : String) : (fetchTitle env url).length ≤ 6 := by
  cases hget : env.httpGet url with
  | error d => simp [fetchTitle_of_error hget]
  | ok req =>
    by_cases hcode : req.StatusCode = 200
    · cases hparse : env.newDocumentFromReader req.Body with
      | error d => simp [fetchTitle_of_parse_error hget hcode hparse]
      | ok doc => simp [fetchTitle_of_document hget hcode hparse]
    · simp [fetchTitle_of_status hget hcode]

/-! ## `Text()` concatenates -/

theorem writeChain_append (n : Node) (buf : String) :
    writeChain n buf = buf ++ writeChain n "" := by
  induction n generalizing buf with
  | nil => simp [writeChain]
  | node type data firstChild nextSibling ihc ihs =>
    simp only [writeChain]
    rw [ihs, ihc, ihs (writeChain firstChild _), ihc (if type = NodeType.text then "" ++ data else "")]
    by_cases h : type = NodeType.text <;> simp [h, String.append_assoc]

theorem writeNode_append (n : Node) (buf : String) :
    writeNode n buf = buf ++ textContent n := by
  cases n with
  | nil => simp [writeNode, textContent]
  | node type data firstChild nextSibling =>
    simp only [writeNode, textContent]
    rw [writeChain_append, writeChain_append firstChild (if type = NodeType.text then "" ++ data else "")]
    by_cases h : type = NodeType.text <;> simp [h, String.append_assoc]

theorem foldl_writeNode (nodes : List Node) (buf : String) :
    nodes.foldl (fun buf n => writeNode n buf) buf = buf ++ text nodes := by
  induction nodes generalizing buf with
  | nil => simp [text]
  | cons n rest ih =>
    simp only [text, List.foldl_cons]
    rw [ih, ih (writeNode n ""), writeNode_append, writeNode_append n ""]
    simp [String.append_assoc]

theorem text_cons (n : Node) (rest : List Node) :
    text (n :: rest) = textContent n ++ text rest := by
  simp only [text, List.foldl_cons]
  rw [foldl_writeNode]
  rfl

theorem text_nil : text [] = "" := rfl

theorem text_eq_foldr (nodes : List Node) :
    text nodes = (nodes.map textContent).foldr (fun t acc => t ++ acc) "" := by
  induction nodes with
  | nil => rfl
  | cons n rest ih => rw [text_cons, ih]; rfl

theorem count_wgDone_fetchTitle (env : Env) (url : String) :
    (fetchTitle env url).count Event.wgDone = 1 := by
  obtain ⟨body, hb, hnot, -⟩ := fetchTitle_shape env url
  rw [hb, List.count_append, List.count_eq_zero_of_not_mem hnot]
  simp

theorem getLast?_fetchTitle (env : Env) (url : String) :
    (fetchTitle env url).getLast? = some Event.wgDone := by
  obtain ⟨body, hb, -, -⟩ := fetchTitle_shape env url
  rw [hb, List.getLast?_concat]

theorem titleMsg_ne_error (url title m : String) :
    titleMsg url title ≠ "Erro ao " ++ m := by
  intro h
  have h2 := congrArg String.data h
  simp [titleMsg, String.data_append] at h2

/-- C2. When `http.Get` returns a response whose status code is not 200,
`fetchTitle` makes exactly the calls `http.Get`, the send of
`"Erro ao acessar <url>: status <code> <status>"`, `Body.Close` and `wg.Done`:
the outcome text holds the target, the decimal status code and the status text,
neither the body nor the parser is consulted, and no title is extracted. -/
theorem fetchTitle_non_success_status (env : Env) (url : String) (req : Response)
    (hget : env.httpGet url = .ok req) (hcode : req.StatusCode ≠ 200) :
    fetchTitle env url =
        [.httpGet url, .send (statusErrorMsg url req.StatusCode req.Status), .bodyClose, .wgDone]
      ∧ Event.newDocument ∉ fetchTitle env url
      ∧ Event.findText ∉ fetchTitle env url
      ∧ statusErrorMsg url req.StatusCode req.Status =
          "Erro ao acessar " ++ url ++ ": status " ++ toString req.StatusCode ++ " " ++ req.Status
      ∧ (∃ pre post, statusErrorMsg url req.StatusCode req.Status = pre ++ url ++ post)
      ∧ (∃ pre post, statusErrorMsg url req.StatusCode req.Status =
          pre ++ toString req.StatusCode ++ post)
      ∧ (∃ pre, statusErrorMsg url req.StatusCode req.Status = pre ++ req.Status)
      ∧ ∀ title, statusErrorMsg url req.StatusCode req.Status ≠ titleMsg url title := by
  have h := fetchTitle_of_status hget hcode
  refine ⟨h, by simp [h], by simp [h], rfl,
    ⟨"Erro ao acessar ", ": status " ++ toString req.StatusCode ++ " " ++ req.Status, ?_⟩,
    ⟨"Erro ao acessar " ++ url ++ ": status ", " " ++ req.Status, ?_⟩, ⟨_, rfl⟩, ?_⟩
  · simp [statusErrorMsg, String.append_assoc]
  · simp [statusErrorMsg, String.append_assoc]
  · intro title heq
    refine titleMsg_ne_error url title
      ("acessar " ++ url ++ ": status " ++ toString req.StatusCode ++ " " ++ req.Status) ?_
    rw [← heq]
    simp only [statusErrorMsg, ← String.append_assoc]
    rfl

/-- The witness of C2: the target answering 204 in the sample environment. -/
theorem fetchTitle_non_success_status_witness :
    sampleEnv.httpGet "g" = .ok ⟨204, "204 No Content", ""⟩ ∧ (204 : Int) ≠ 200 ∧
      fetchTitle sampleEnv "g" =
        [.httpGet "g", .send "Erro ao acessar g: status 204 204 No Content", .bodyClose, .wgDone] :=
  ⟨rfl, by decide,
    (fetchTitle_non_success_status sampleEnv "g" ⟨204, "204 No Content", ""⟩ rfl (by decide)).1⟩

/-- C3. When `http.Get` reports a transport failure with detail `d`, `fetchTitle`
makes exactly the calls `http.Get`, the send of `"Erro ao acessar <url>: <d>"` and
`wg.Done`: the outcome is built from the target and `d` alone, nothing is parsed
and no title is extracted, and any environment in which the retrieval fails with
the same detail gives the same run, whatever it would have served or parsed. -/
theorem fetchTitle_transport_failure (env env' : Env) (url d : String)
    (hget : env.httpGet url = .error d) (hget' : env'.httpGet url = .error d) :
    fetchTitle env url = [.httpGet url, .send (transportErrorMsg url d), .wgDone]
      ∧ fetchTitle env' url = fetchTitle env url
      ∧ transportErrorMsg url d = "Erro ao acessar " ++ url ++ ": " ++ d
      ∧ Event.newDocument ∉ fetchTitle env url
      ∧ Event.findText ∉ fetchTitle env url
      ∧ ∀ title, transportErrorMsg url d ≠ titleMsg url title := by
  have h := fetchTitle_of_error hget
  refine ⟨h, by rw [h, fetchTitle_of_error hget'], rfl, by simp [h], by simp [h], ?_⟩
  intro title heq
  refine titleMsg_ne_error url title ("acessar " ++ url ++ ": " ++ d) ?_
  rw [← heq]
  simp only [transportErrorMsg, ← String.append_assoc]
  rfl

/-- The witness of C3: the target refusing the connection, in the sample
environment and in one that would serve a page to every other target. -/
theorem fetchTitle_transport_failure_witness :
    sampleEnv.httpGet "b" = .error "connection refused" ∧
      fetchTitle sampleEnv "b" =
        [.httpGet "b", .send "Erro ao acessar b: connection refused", .wgDone] :=
  ⟨rfl, (fetchTitle_transport_failure sampleEnv
    { httpGet := fun _ => .error "connection refused", newDocumentFromReader := fun _ => .ok pageX }
    "b" "connection refused" rfl rfl).1⟩

/-- C4. When `http.Get` returns a response with status code 200 and
`goquery.NewDocumentFromReader` rejects its body with detail `d`, `fetchTitle`
makes exactly the calls `http.Get`, `NewDocumentFromReader`, the send of
`"Erro ao carregar documento de <url>: <d>"`, `Body.Close` and `wg.Done`: the
outcome carries the target and `d`, and no title is extracted. -/
theorem fetchTitle_parse_failure (env : Env) (url d : String) (req : Response)
    (hget : env.httpGet url = .ok req) (hcode : req.StatusCode = 200)
    (hparse : env.newDocumentFromReader req.Body = .error d) :
    fetchTitle env url =
        [.httpGet url, .newDocument, .send (parseErrorMsg url d), .bodyClose, .wgDone]
      ∧ parseErrorMsg url d = "Erro ao carregar documento de " ++ url ++ ": " ++ d
      ∧ Event.findText ∉ fetchTitle env url
      ∧ ∀ title, parseErrorMsg url d ≠ titleMsg url title := by
  have h := fetchTitle_of_parse_error hget hcode hparse
  refine ⟨h, rfl, by simp [h], ?_⟩
  intro title heq
  refine titleMsg_ne_error url title ("carregar documento de " ++ url ++ ": " ++ d) ?_
  rw [← heq]
  simp only [parseErrorMsg, ← String.append_assoc]
  rfl

/-- The witness of C4: the target serving an unreadable stream. -/
theorem fetchTitle_parse_failure_witness :
    sampleEnv.httpGet "d" = .ok ⟨200, "200 OK", "broken"⟩ ∧ (200 : Int) = 200 ∧
      sampleEnv.newDocumentFromReader "broken" = .error "unexpected EOF" ∧
      fetchTitle sampleEnv "d" =
        [.httpGet "d", .newDocument, .send "Erro ao carregar documento de d: unexpected EOF",
          .bodyClose, .wgDone] :=
  ⟨rfl, rfl, rfl,
    (fetchTitle_parse_failure sampleEnv "d" "unexpected EOF" ⟨200, "200 OK", "broken"⟩
      rfl rfl rfl).1⟩

/-- C5 does not hold of the code. The page served by target `e` has two elements
matching `title`, with text contents `A` and `B`; the value `fetchTitle` puts in
the success outcome is `AB`, where the claim gives the text content `A` of the
first matching element. -/
theorem fetchTitle_two_titles :
    sampleEnv.httpGet "e" = .ok ⟨200, "200 OK", "<title>A</title><title>B</title>"⟩ ∧
      sampleEnv.newDocumentFromReader "<title>A</title><title>B</title>" = .ok pageAB ∧
      (find pageAB).map textContent = ["A", "B"] ∧
      written (fetchTitle sampleEnv "e") = [titleMsg "e" "AB"] ∧
      titleMsg "e" "AB" ≠ titleMsg "e" "A" :=
  ⟨rfl, rfl, by decide, by decide, by decide⟩

/-- What `fetchTitle` extracts. When `http.Get` returns a response with status
code 200 whose body parses into a document in which `first` is the first element
matching `title` and `rest` are the further ones, the value in the success outcome
is the text content of `first` followed by the text contents of the elements of
`rest`, in document order; it is the text content of `first` when no further
element matches. -/
theorem fetchTitle_title_text (env : Env) (url : String) (req : Response) (doc first : Node)
    (rest : List Node) (hget : env.httpGet url = .ok req) (hcode : req.StatusCode = 200)
    (hparse : env.newDocumentFromReader req.Body = .ok doc) (hfind : find doc = first :: rest) :
    fetchTitle env url =
        [.httpGet url, .newDocument, .findText,
          .send (titleMsg url (textContent first ++ text rest)), .bodyClose, .wgDone]
      ∧ text rest = (rest.map textContent).foldr (fun t acc => t ++ acc) ""
      ∧ (rest = [] → written (fetchTitle env url) = [titleMsg url (textContent first)]) := by
  have h := fetchTitle_of_document hget hcode hparse
  rw [hfind, text_cons] at h
  refine ⟨h, text_eq_foldr rest, ?_⟩
  intro hrest
  subst hrest
  simp [h, written, text_nil]

/-- The page with the two `title` elements, through `fetchTitle_title_text`. -/
theorem fetchTitle_title_text_witness :
    sampleEnv.httpGet "e" = .ok ⟨200, "200 OK", "<title>A</title><title>B</title>"⟩ ∧
      sampleEnv.newDocumentFromReader "<title>A</title><title>B</title>" = .ok pageAB ∧
      find pageAB =
        [.node .element "title" (.node .text "A" .nil .nil)
            (.node .element "title" (.node .text "B" .nil .nil) .nil),
          .node .element "title" (.node .text "B" .nil .nil) .nil] ∧
      fetchTitle sampleEnv "e" =
        [.httpGet "e", .newDocument, .findText, .send "Título de e: AB", .bodyClose, .wgDone] :=
  ⟨rfl, rfl, rfl,
    (fetchTitle_title_text sampleEnv "e" ⟨200, "200 OK", "<title>A</title><title>B</title>"⟩
      pageAB _ _ rfl rfl rfl rfl).1⟩

/-- C6. When `http.Get` returns a response with status code 200 whose body parses
into a document with no element matching `title`, `fetchTitle` writes the success
message for the target with the empty string as the value,
`"Título de <url>: "`, which is none of the three failure messages. -/
theorem fetchTitle_no_title (env : Env) (url : String) (req : Response) (doc : Node)
    (hget : env.httpGet url = .ok req) (hcode : req.StatusCode = 200)
    (hparse : env.newDocumentFromReader req.Body = .ok doc) (hfind : find doc = []) :
    fetchTitle env url =
        [.httpGet url, .newDocument, .findText, .send (titleMsg url ""), .bodyClose, .wgDone]
      ∧ titleMsg url "" = "Título de " ++ url ++ ": "
      ∧ (∀ d, titleMsg url "" ≠ transportErrorMsg url d)
      ∧ (∀ code status, titleMsg url "" ≠ statusErrorMsg url code status)
      ∧ (∀ d, titleMsg url "" ≠ parseErrorMsg url d) := by
  have h := fetchTitle_of_document hget hcode hparse
  rw [hfind, text_nil] at h
  refine ⟨h, by simp [titleMsg], ?_, ?_, ?_⟩
  · intro d
    refine (titleMsg_ne_error url "" ("acessar " ++ url ++ ": " ++ d)).trans_eq ?_
    simp only [transportErrorMsg, ← String.append_assoc]
    rfl
  · intro code status
    refine (titleMsg_ne_error url ""
      ("acessar " ++ url ++ ": status " ++ toString code ++ " " ++ status)).trans_eq ?_
    simp only [statusErrorMsg, ← String.append_assoc]
    rfl
  · intro d
    refine (titleMsg_ne_error url "" ("carregar documento de " ++ url ++ ": " ++ d)).trans_eq ?_
    simp only [parseErrorMsg, ← String.append_assoc]
    rfl

/-- The witness of C6: the page with a body and no `title`. -/
theorem fetchTitle_no_title_witness :
    sampleEnv.httpGet "f" = .ok ⟨200, "200 OK", "<body>hello</body>"⟩ ∧
      sampleEnv.newDocumentFromReader "<body>hello</body>" = .ok pageNoTitle ∧
      find pageNoTitle = [] ∧
      fetchTitle sampleEnv "f" =
        [.httpGet "f", .newDocument, .findText, .send "Título de f: ", .bodyClose, .wgDone] :=
  ⟨rfl, rfl, rfl,
    (fetchTitle_no_title sampleEnv "f" ⟨200, "200 OK", "<body>hello</body>"⟩ pageNoTitle
      rfl rfl rfl rfl).1⟩

/-- C7, as stated, fails: for the target refusing the connection `fetchTitle`
returns before `defer req.Body.Close()` is reached, and `Body.Close` is not
called. -/
theorem fetchTitle_close_counterexample :
    sampleEnv.httpGet "b" = .error "connection refused" ∧
      (fetchTitle sampleEnv "b").count Event.bodyClose = 0 ∧
      (fetchTitle sampleEnv "b").count Event.bodyClose ≠ 1 :=
  ⟨rfl, by decide, by decide⟩

/-- C7 (amended). In every run of `fetchTitle` in which `http.Get` returns a
response, whichever later step ends the run (non-success status, parse failure or
extraction), `Body.Close` is called exactly once; when `http.Get` reports a
transport failure there is no response and `Body.Close` is not called. -/
theorem fetchTitle_close_count (env : Env) (url : String) :
    (fetchTitle env url).count Event.bodyClose =
      match env.httpGet url with
      | .ok _ => 1
      | .error _ => 0 := by
  cases hget : env.httpGet url with
  | error d => simp [fetchTitle_of_error hget]
  | ok req =>
    by_cases hcode : req.StatusCode = 200
    · cases hparse : env.newDocumentFromReader req.Body with
      | error d => simp [fetchTitle_of_parse_error hget hcode hparse]
      | ok doc => simp [fetchTitle_of_document hget hcode hparse]
    · simp [fetchTitle_of_status hget hcode]

/-- C8. Every run of `fetchTitle` ends with its only call of `wg.Done`: the run
is a body followed by `wg.Done`, the body holds no `wg.Done`, and the single write
to `results` and every call of `Body.Close` are made in the body, before it. -/
theorem fetchTitle_done_last (env : Env) (url : String) :
    ∃ body, fetchTitle env url = body ++ [Event.wgDone]
      ∧ Event.wgDone ∉ body
      ∧ (fetchTitle env url).count Event.wgDone = 1
      ∧ written body = [outcome env url]
      ∧ written (fetchTitle env url) = [outcome env url]
      ∧ body.count Event.bodyClose = (fetchTitle env url).count Event.bodyClose := by
  obtain ⟨body, hb, hnot, hw⟩ := fetchTitle_shape env url
  refine ⟨body, hb, hnot, ?_, hw, written_fetchTitle env url, ?_⟩
  · rw [hb, List.count_append, List.count_eq_zero_of_not_mem hnot]
    simp
  · rw [hb, List.count_append]
    simp

/-! ## The transition system keeps its invariant -/

theorem split_at_getElem? {α : Type} {ws : List α} {k : Nat} {r : α} (h : ws[k]? = some r) :
    ∃ A B, ws = A ++ r :: B ∧ A.length = k ∧ ∀ r', ws.set k r' = A ++ r' :: B := by
  obtain ⟨hk, hr⟩ := List.getElem?_eq_some.mp h
  refine ⟨ws.take k, ws.drop (k + 1), ?_, ?_, ?_⟩
  · rw [← hr, ← List.drop_eq_getElem_cons hk, List.take_append_drop]
  · simp [List.length_take]; omega
  · intro r'
    rw [List.set_eq_take_append_cons_drop, if_pos hk]

theorem inv_init (env : Env) (urls : List String) : Inv env urls (init urls) := by
  constructor <;> simp [init, spawnedAt, beforeClose, afterWait, addPending]

set_option linter.unusedTactic false in
set_option linter.unreachableTactic false in
theorem inv_stepMain {env : Env} {urls : List String} {s s' : State}
    (hinv : Inv env urls s) (hstep : stepMain env urls s = some s') : Inv env urls s' := by
  obtain ⟨pc, wg, ⟨cap, buf, closed⟩, workers, stdout, fault, writers⟩ := s
  obtain ⟨h1, h2, h3, h4, h5, h6, h7, h8, h9, h10, h11, h12, h13, h14, h15⟩ := hinv
  dsimp only at h1 h2 h3 h4 h5 h6 h7 h8 h9 h10 h11 h12 h13 h14 h15
  cases pc with
  | loop i =>
    simp only [stepMain] at hstep
    dsimp only [spawnedAt, beforeClose, afterWait, addPending] at h3 h6 h9
    cases hu : urls[i]? with
    | none =>
      rw [hu] at hstep
      simp only [Option.some.injEq] at hstep
      subst hstep
      have hi : urls.length ≤ i := by
        by_contra hlt
        rw [List.getElem?_eq_getElem (by omega)] at hu
        exact Option.noConfusion hu
      constructor <;> dsimp only [spawnedAt, beforeClose, afterWait, addPending] <;>
        try first | assumption | omega | (simp; done) | (intro j hj; cases hj; omega)
      done
    | some u =>
      rw [hu] at hstep
      simp only [Option.some.injEq] at hstep
      subst hstep
      have hi : i < urls.length := (List.getElem?_eq_some.mp hu).1
      constructor <;> dsimp only [spawnedAt, beforeClose, afterWait, addPending] <;>
        try first | assumption | omega | (simp; done) | (intro j hj; cases hj; omega)
      done
  | spawn i =>
    simp only [stepMain] at hstep
    dsimp only [spawnedAt, beforeClose, afterWait, addPending] at h3 h6 h9
    cases hu : urls[i]? with
    | none => rw [hu] at hstep; exact Option.noConfusion hstep
    | some u =>
      rw [hu] at hstep
      simp only [Option.some.injEq] at hstep
      subst hstep
      have hi : i < urls.length := (List.getElem?_eq_some.mp hu).1
      subst h3
      constructor <;> dsimp only [spawnedAt, beforeClose, afterWait, addPending] <;>
        try first | assumption | omega | (simp; done) | (intro j hj; cases hj; omega)
      case spawnedLe => simp; omega
      case counter =>
        rw [List.map_append, List.sum_append]
        simp only [List.map_cons, List.map_nil, List.sum_cons, List.sum_nil,
          count_wgDone_fetchTitle]
        exact h6
      case shape =>
        intro r hr
        rcases List.mem_append.mp hr with h | h
        · exact h7 r h
        · rw [List.mem_singleton] at h
          subst h
          exact ⟨Or.inr (getLast?_fetchTitle env u), by rw [written_fetchTitle]; simp⟩
      case msgs =>
        rw [List.length_append, List.length_singleton, List.take_succ, hu, List.map_append,
          List.map_append, List.flatten_append, ← List.append_assoc]
        simp only [List.map_cons, List.map_nil, List.flatten_cons, List.flatten_nil,
          List.append_nil, written_fetchTitle, Option.toList]
        exact h8.append_right _
      case writersDone =>
        intro k hk
        obtain ⟨r, hr, hw⟩ := h14 k hk
        refine ⟨r, ?_, hw⟩
        rw [List.getElem?_append_left (List.getElem?_eq_some.mp hr).1]
        exact hr
  | wait =>
    simp only [stepMain] at hstep
    dsimp only [spawnedAt, beforeClose, afterWait, addPending] at h3 h6 h9
    by_cases hwg : wg = 0
    · rw [if_pos hwg] at hstep
      simp only [Option.some.injEq] at hstep
      subst hstep
      constructor <;> dsimp only [spawnedAt, beforeClose, afterWait, addPending] <;>
        try first | assumption | omega | (simp; done) | (intro j hj; cases hj; omega)
      next =>
        intro _ r hr
        have hsum : (workers.map (List.count Event.wgDone)).sum = 0 := by omega
        have hzero := List.sum_eq_zero_iff.mp hsum _ (List.mem_map_of_mem _ hr)
        rcases (h7 r hr).1 with h | h
        · exact h
        · have hmem : Event.wgDone ∈ r := List.mem_of_mem_getLast? (by rw [h]; rfl)
          have := List.count_pos_iff.mpr hmem
          omega
    · rw [if_neg hwg] at hstep; exact Option.noConfusion hstep
  | close =>
    dsimp only [spawnedAt, beforeClose, afterWait, addPending] at h3 h6 h9 h11
    have hc : closed = false := (h9 rfl).1
    subst hc
    simp only [stepMain] at hstep
    simp only [Bool.false_eq_true, if_false, Option.some.injEq] at hstep
    subst hstep
    constructor <;> dsimp only [spawnedAt, beforeClose, afterWait, addPending] <;>
        try first | assumption | omega | (simp; done) | (intro j hj; cases hj; omega)
    done
  | drain =>
    simp only [stepMain] at hstep
    dsimp only [spawnedAt, beforeClose, afterWait, addPending] at h3 h6 h9 h10 h11
    cases buf with
    | nil =>
      have hc : closed = true := h10 rfl
      subst hc
      simp only [if_true, Option.some.injEq] at hstep
      subst hstep
      constructor <;> dsimp only [spawnedAt, beforeClose, afterWait, addPending] <;>
        try first | assumption | omega | (simp; done) | (intro j hj; cases hj; omega)
      done
    | cons msg rest =>
      simp only [Option.some.injEq] at hstep
      subst hstep
      constructor <;> dsimp only [spawnedAt, beforeClose, afterWait, addPending] <;>
        try first | assumption | omega | (simp; done) | (intro j hj; cases hj; omega)
      case msgs => simpa using h8
      case writersCount =>
        simp only [List.length_append, List.length_cons, List.length_nil] at h15 ⊢
        omega
  | exited => simp [stepMain] at hstep

theorem pc_of_active {env : Env} {urls : List String} {s : State} (hinv : Inv env urls s)
    {k : Nat} {e : Event} {rest : List Event} (hk : s.workers[k]? = some (e :: rest)) :
    beforeClose s.pc = true ∧ afterWait s.pc = false := by
  have hmem : (e :: rest) ∈ s.workers := List.mem_iff_getElem?.mpr ⟨k, hk⟩
  have haw : afterWait s.pc = false := by
    cases h : afterWait s.pc with
    | false => rfl
    | true => exact absurd (hinv.finished h _ hmem) (List.cons_ne_nil _ _)
  refine ⟨?_, haw⟩
  cases hpc : s.pc <;> simp_all [beforeClose, afterWait]

theorem written_cons (e : Event) (rest : List Event) :
    written (e :: rest) = written [e] ++ written rest := by
  cases e <;> simp [written]

theorem length_written_singleton (e : Event) : (written [e]).length ≤ 1 := by
  cases e <;> simp [written]

theorem shape_tail {e : Event} {rest : List Event}
    (h : (e :: rest = [] ∨ (e :: rest).getLast? = some Event.wgDone) ∧ (written (e :: rest)).length ≤ 1) :
    (rest = [] ∨ rest.getLast? = some Event.wgDone) ∧ (written rest).length ≤ 1 := by
  obtain ⟨h1, h2⟩ := h
  constructor
  · cases rest with
    | nil => exact Or.inl rfl
    | cons e' rest' =>
      right
      rcases h1 with h1 | h1
      · exact absurd h1 (List.cons_ne_nil _ _)
      · rwa [List.getLast?_cons_cons] at h1
  · rw [written_cons, List.length_append] at h2
    omega

theorem getElem?_replace {α : Type} (A B : List α) (x y : α) (j : Nat) :
    (A ++ y :: B)[j]? = if j = A.length then some y else (A ++ x :: B)[j]? := by
  by_cases hj : j = A.length
  · subst hj
    rw [if_pos rfl, List.getElem?_append_right (le_refl _)]
    simp
  · rw [if_neg hj]
    rcases Nat.lt_or_gt_of_ne hj with hlt | hgt
    · rw [List.getElem?_append_left hlt, List.getElem?_append_left hlt]
    · rw [List.getElem?_append_right (by omega), List.getElem?_append_right (by omega)]
      obtain ⟨m, hm⟩ : ∃ m, j - A.length = m + 1 := ⟨j - A.length - 1, by omega⟩
      rw [hm]; simp

theorem inv_pop {env : Env} {urls : List String} {s : State} {k : Nat} {e : Event}
    {rest : List Event} (hinv : Inv env urls s) (hk : s.workers[k]? = some (e :: rest)) :
    Inv env urls (pop s k e rest) := by
  obtain ⟨hbc, haw⟩ := pc_of_active hinv hk
  obtain ⟨A, B, hAB, hAk, hset⟩ := split_at_getElem? hk
  have hmem : (e :: rest) ∈ s.workers := List.mem_iff_getElem?.mpr ⟨k, hk⟩
  obtain ⟨htl, hwr⟩ := shape_tail (hinv.shape _ hmem)
  have hlen : (s.workers.set k rest).length = s.workers.length := List.length_set _ _ _
  have hw1 := (hinv.shape _ hmem).2
  rw [written_cons, List.length_append] at hw1
  constructor <;> dsimp only [pop]
  · exact hinv.noFault
  · exact hinv.capEq
  · rw [hlen]; exact hinv.spawned
  · rw [hlen]; exact hinv.spawnedLe
  · exact hinv.spawnLt
  · have hc : (e :: rest).count Event.wgDone = [e].count Event.wgDone + rest.count Event.wgDone :=
      List.count_append Event.wgDone [e] rest
    have h6 := hinv.counter
    rw [hAB] at h6
    rw [hset, h6]
    simp only [List.map_append, List.sum_append, List.map_cons, List.sum_cons, hc]
    push_cast
    omega
  · rw [hset]
    intro r hr
    rcases List.mem_append.mp hr with h | h
    · exact hinv.shape r (by rw [hAB]; exact List.mem_append_left _ h)
    · rcases List.mem_cons.mp h with h | h
      · subst h; exact ⟨htl, hwr⟩
      · exact hinv.shape r (by rw [hAB]; exact List.mem_append_right _ (List.mem_cons_of_mem _ h))
  · have h8 := hinv.msgs
    rw [hAB] at h8
    rw [hlen, hset]
    rw [hAB]
    refine List.Perm.trans ?_ h8
    rw [List.perm_iff_count]
    intro a
    simp only [List.count_append, List.map_append, List.map_cons, List.flatten_append,
      List.flatten_cons, written_cons e rest]
    omega
  · exact hinv.notClosed
  · exact hinv.isClosed
  · intro h; rw [haw] at h; exact absurd h (by simp)
  · intro h; rw [h] at haw; exact absurd haw (by simp [afterWait])
  · have hnot : written [e] ≠ [] → k ∉ s.writers := by
      intro hne hkw
      obtain ⟨r, hr, hr0⟩ := hinv.writersDone k hkw
      rw [hk] at hr
      cases hr
      rw [written_cons] at hr0
      exact hne (List.append_eq_nil.mp hr0).1
    cases hw : written [e] with
    | nil => simpa using hinv.writersNodup
    | cons m t =>
      have ht : t = [] := by
        have := length_written_singleton e
        rw [hw] at this
        exact List.length_eq_zero.mp (by simpa using this)
      subst ht
      have hkn := hnot (by rw [hw]; exact List.cons_ne_nil _ _)
      simp only [List.map_cons, List.map_nil]
      rw [List.nodup_append]
      exact ⟨hinv.writersNodup, List.nodup_singleton k, by
        intro x hx hx2
        rw [List.mem_singleton] at hx2
        subst hx2
        exact hkn hx⟩
  · intro j hj
    rw [hset, getElem?_replace A B (e :: rest) rest j, ← hAB]
    by_cases hjk : j = A.length
    · rw [if_pos hjk]
      refine ⟨rest, rfl, ?_⟩
      rcases List.mem_append.mp hj with h | h
      · obtain ⟨r, hr, hr0⟩ := hinv.writersDone j h
        rw [hjk, hAk, hk] at hr
        cases hr
        rw [written_cons] at hr0
        exact (List.append_eq_nil.mp hr0).2
      · have hpos : 0 < (written [e]).length := by
          rw [← List.length_map (written [e]) fun _ => k]
          exact List.length_pos_of_mem h
        exact List.length_eq_zero.mp (by omega)
    · rw [if_neg hjk]
      rcases List.mem_append.mp hj with h | h
      · exact hinv.writersDone j h
      · obtain ⟨_, _, hjk2⟩ := List.mem_map.mp h
        exact absurd (hjk2.symm.trans hAk.symm) hjk
  · have h15 := hinv.writersCount
    simp only [List.length_append, List.length_map]
    omega

theorem room_of_send {env : Env} {urls : List String} {s : State} {k : Nat} {msg : String}
    {rest : List Event} (hinv : Inv env urls s)
    (hk : s.workers[k]? = some (Event.send msg :: rest)) :
    s.results.buf.length < s.results.cap := by
  obtain ⟨A, B, hAB, -, -⟩ := split_at_getElem? hk
  have hlen := hinv.msgs.length_eq
  have hle := hinv.spawnedLe
  rw [List.length_map, List.length_take, hAB] at hlen
  rw [hAB] at hle
  simp only [List.length_append, List.map_append, List.map_cons, List.flatten_append,
    List.flatten_cons, written_cons (Event.send msg) rest] at hlen hle
  have h1 : (written [Event.send msg]).length = 1 := by simp [written]
  rw [hinv.capEq]
  simp only [List.length_cons] at hlen hle
  omega

theorem counter_pos_of_done {env : Env} {urls : List String} {s : State} {k : Nat}
    {rest : List Event} (hinv : Inv env urls s)
    (hk : s.workers[k]? = some (Event.wgDone :: rest)) : 0 < s.wg := by
  obtain ⟨A, B, hAB, -, -⟩ := split_at_getElem? hk
  have h6 := hinv.counter
  rw [hAB] at h6
  simp only [List.map_append, List.sum_append, List.map_cons, List.sum_cons,
    List.count_cons_self] at h6
  rw [h6]
  exact Int.natCast_pos.mpr (by omega)

/-- Under the invariant a goroutine that has a call left can make it, and the
state after it is `pop`. -/
theorem stepWorker_eq_pop {env : Env} {urls : List String} {s : State} {k : Nat} {e : Event}
    {rest : List Event} (hinv : Inv env urls s) (hk : s.workers[k]? = some (e :: rest)) :
    stepWorker s k = some (pop s k e rest) := by
  obtain ⟨hbc, -⟩ := pc_of_active hinv hk
  obtain ⟨hclosed, -⟩ := hinv.notClosed hbc
  cases e with
  | send msg =>
    have hroom := room_of_send hinv hk
    simp [stepWorker, hk, hclosed, hroom, pop, written]
  | wgDone =>
    have hpos := counter_pos_of_done hinv hk
    have hnot : ¬ (s.wg - 1 < 0) := by omega
    simp [stepWorker, hk, hnot, pop, written]
  | httpGet url => simp [stepWorker, hk, pop, written]
  | newDocument => simp [stepWorker, hk, pop, written]
  | findText => simp [stepWorker, hk, pop, written]
  | bodyClose => simp [stepWorker, hk, pop, written]

theorem inv_stepWorker {env : Env} {urls : List String} {s s' : State} {k : Nat}
    (hinv : Inv env urls s) (hstep : stepWorker s k = some s') : Inv env urls s' := by
  cases hk : s.workers[k]? with
  | none => simp [stepWorker, hk] at hstep
  | some r =>
    cases r with
    | nil => simp [stepWorker, hk] at hstep
    | cons e rest =>
      rw [stepWorker_eq_pop hinv hk] at hstep
      cases hstep
      exact inv_pop hinv hk

theorem inv_step {env : Env} {urls : List String} {s s' : State} {tid : Nat}
    (hinv : Inv env urls s) (hstep : step env urls s tid = some s') : Inv env urls s' := by
  unfold step at hstep
  split at hstep
  · exact Option.noConfusion hstep
  · cases tid with
    | zero => exact inv_stepMain hinv hstep
    | succ k => exact inv_stepWorker hinv hstep

theorem inv_run {env : Env} {urls : List String} {sched : List Nat} {s s' : State}
    (hinv : Inv env urls s) (hrun : run env urls s sched = some s') : Inv env urls s' := by
  induction sched generalizing s with
  | nil =>
    simp only [run, Option.some.injEq] at hrun
    subst hrun
    exact hinv
  | cons tid sched ih =>
    simp only [run] at hrun
    cases hstep : step env urls s tid with
    | none => rw [hstep] at hrun; exact Option.noConfusion hrun
    | some s1 =>
      rw [hstep] at hrun
      exact ih (inv_step hinv hstep) hrun

/-- Every state the program reaches satisfies the invariant. -/
theorem inv_exec {env : Env} {urls : List String} {sched : List Nat} {s : State}
    (hexec : exec env urls sched = some s) : Inv env urls s :=
  inv_run (inv_init env urls) hexec

/-! ## Progress and termination -/

theorem step_zero {env : Env} {urls : List String} {s : State} (hf : s.fault = none)
    (hpc : s.pc ≠ MainPc.exited) : step env urls s 0 = stepMain env urls s := by
  simp [step, hf, hpc]

theorem step_succ {env : Env} {urls : List String} {s : State} (hf : s.fault = none)
    (hpc : s.pc ≠ MainPc.exited) (k : Nat) : step env urls s (k + 1) = stepWorker s k := by
  simp [step, hf, hpc]

/-- Under the invariant some thread can move as long as `main` has not returned. -/
theorem progress {env : Env} {urls : List String} {s : State} (hinv : Inv env urls s)
    (hpc : s.pc ≠ MainPc.exited) : ∃ tid s', step env urls s tid = some s' := by
  have hf := hinv.noFault
  cases hp : s.pc with
  | loop i =>
    refine ⟨0, ?_⟩
    rw [step_zero hf hpc]
    cases hu : urls[i]? <;> simp [stepMain, hp, hu]
  | spawn i =>
    refine ⟨0, ?_⟩
    rw [step_zero hf hpc]
    have hi := hinv.spawnLt i hp
    simp [stepMain, hp, List.getElem?_eq_getElem hi]
  | wait =>
    by_cases hwg : s.wg = 0
    · refine ⟨0, ?_⟩
      rw [step_zero hf hpc]
      simp [stepMain, hp, hwg]
    · have h6 := hinv.counter
      rw [hp] at h6
      have hsum : (s.workers.map (List.count Event.wgDone)).sum ≠ 0 := by
        intro h0
        apply hwg
        rw [h6, h0]
        rfl
      have hex : ∃ r ∈ s.workers, r.count Event.wgDone ≠ 0 := by
        by_contra hall
        apply hsum
        rw [List.sum_eq_zero_iff]
        intro x hx
        obtain ⟨r, hr, hrx⟩ := List.mem_map.mp hx
        by_contra hx0
        exact hall ⟨r, hr, by rw [hrx]; exact hx0⟩
      obtain ⟨r, hr, hcount⟩ := hex
      obtain ⟨k, hk⟩ := List.mem_iff_getElem?.mp hr
      cases r with
      | nil => exact absurd rfl hcount
      | cons e rest =>
        refine ⟨k + 1, pop s k e rest, ?_⟩
        rw [step_succ hf hpc]
        exact stepWorker_eq_pop hinv hk
  | close =>
    refine ⟨0, ?_⟩
    rw [step_zero hf hpc]
    have hc := (hinv.notClosed (by rw [hp]; rfl)).1
    simp [stepMain, hp, hc]
  | drain =>
    refine ⟨0, ?_⟩
    rw [step_zero hf hpc]
    have hc := hinv.isClosed (by rw [hp]; rfl)
    cases hb : s.results.buf <;> simp [stepMain, hp, hb, hc]
  | exited => exact absurd hp hpc

theorem unspawnedWeight_of_some {env : Env} {urls : List String} {i : Nat} {u : String}
    (hu : urls[i]? = some u) :
    unspawnedWeight env urls i = 2 * (fetchTitle env u).length + unspawnedWeight env urls (i + 1) := by
  obtain ⟨hi, hget⟩ := List.getElem?_eq_some.mp hu
  simp only [unspawnedWeight]
  rw [List.drop_eq_getElem_cons hi, hget]
  simp only [List.map_cons, List.sum_cons]
  omega

theorem measure_stepMain {env : Env} {urls : List String} {s s' : State}
    (hinv : Inv env urls s) (hstep : stepMain env urls s = some s') :
    measure env urls s' < measure env urls s := by
  obtain ⟨pc, wg, ⟨cap, buf, closed⟩, workers, stdout, fault, writers⟩ := s
  have h1 := hinv.noFault
  have h9 := hinv.notClosed
  have h10 := hinv.isClosed
  dsimp only at h1 h9 h10
  subst h1
  cases pc with
  | loop i =>
    simp only [stepMain] at hstep
    cases hu : urls[i]? with
    | none =>
      rw [hu] at hstep
      cases hstep
      simp only [measure, mainWeight]
      omega
    | some u =>
      rw [hu] at hstep
      cases hstep
      have hi : i < urls.length := (List.getElem?_eq_some.mp hu).1
      simp only [measure, mainWeight]
      omega
  | spawn i =>
    simp only [stepMain] at hstep
    cases hu : urls[i]? with
    | none => rw [hu] at hstep; exact Option.noConfusion hstep
    | some u =>
      rw [hu] at hstep
      cases hstep
      have hi : i < urls.length := (List.getElem?_eq_some.mp hu).1
      simp only [measure, mainWeight, unspawnedWeight_of_some hu, List.map_append,
        List.sum_append, List.map_cons, List.map_nil, List.sum_cons, List.sum_nil]
      omega
  | wait =>
    simp only [stepMain] at hstep
    split at hstep
    · cases hstep
      simp only [measure, mainWeight]
      omega
    · exact Option.noConfusion hstep
  | close =>
    have hc : closed = false := (h9 rfl).1
    subst hc
    simp only [stepMain, Bool.false_eq_true, if_false] at hstep
    cases hstep
    simp only [measure, mainWeight]
    omega
  | drain =>
    simp only [stepMain] at hstep
    cases buf with
    | nil =>
      have hc : closed = true := h10 rfl
      subst hc
      simp only [if_true] at hstep
      cases hstep
      simp only [measure, mainWeight]
      omega
    | cons msg rest =>
      cases hstep
      simp only [measure, mainWeight, List.length_cons]
      omega
  | exited => simp [stepMain] at hstep

theorem measure_pop {env : Env} {urls : List String} {s : State} {k : Nat} {e : Event}
    {rest : List Event} (hk : s.workers[k]? = some (e :: rest)) :
    measure env urls (pop s k e rest) < measure env urls s := by
  obtain ⟨A, B, hAB, -, hset⟩ := split_at_getElem? hk
  have hw := length_written_singleton e
  simp only [measure, pop, hset]
  rw [hAB]
  simp only [List.map_append, List.sum_append, List.map_cons, List.sum_cons, List.length_cons,
    List.length_append]
  omega

theorem measure_step {env : Env} {urls : List String} {s s' : State} {tid : Nat}
    (hinv : Inv env urls s) (hstep : step env urls s tid = some s') :
    measure env urls s' < measure env urls s := by
  unfold step at hstep
  split at hstep
  · exact Option.noConfusion hstep
  · cases tid with
    | zero => exact measure_stepMain hinv hstep
    | succ k =>
      dsimp only at hstep
      cases hk : s.workers[k]? with
      | none => simp [stepWorker, hk] at hstep
      | some r =>
        cases r with
        | nil => simp [stepWorker, hk] at hstep
        | cons e rest =>
          rw [stepWorker_eq_pop hinv hk] at hstep
          cases hstep
          exact measure_pop hk

theorem measure_run {env : Env} {urls : List String} {sched : List Nat} {s s' : State}
    (hinv : Inv env urls s) (hrun : run env urls s sched = some s') :
    sched.length + measure env urls s' ≤ measure env urls s := by
  induction sched generalizing s with
  | nil =>
    simp only [run, Option.some.injEq] at hrun
    subst hrun
    simp
  | cons tid sched ih =>
    simp only [run] at hrun
    cases hstep : step env urls s tid with
    | none => rw [hstep] at hrun; exact Option.noConfusion hrun
    | some s1 =>
      rw [hstep] at hrun
      have h1 := ih (inv_step hinv hstep) hrun
      have h2 := measure_step hinv hstep
      simp only [List.length_cons]
      omega

theorem sum_length_fetchTitle_le (env : Env) (urls : List String) :
    (urls.map fun u => (fetchTitle env u).length).sum ≤ 6 * urls.length := by
  induction urls with
  | nil => simp
  | cons u rest ih =>
    have := length_fetchTitle_le env u
    simp only [List.map_cons, List.sum_cons, List.length_cons]
    omega

theorem measure_init_le (env : Env) (urls : List String) :
    measure env urls (init urls) ≤ 14 * urls.length + 5 := by
  have := sum_length_fetchTitle_le env urls
  simp only [measure, init, mainWeight, unspawnedWeight, List.drop_zero, List.map_nil,
    List.sum_nil, List.length_nil]
  simp
  omega

/-! ## The claims on `main` -/

theorem workers_done_of_afterWait {env : Env} {urls : List String} {s : State}
    (hinv : Inv env urls s) (h : afterWait s.pc = true) :
    s.workers.length = urls.length ∧ (s.workers.map written).flatten = [] := by
  have hfin := hinv.finished h
  have hlen := hinv.spawned
  constructor
  · cases hp : s.pc <;> simp_all [spawnedAt, afterWait]
  · rw [List.flatten_eq_nil_iff]
    intro l hl
    obtain ⟨r, hr, hrl⟩ := List.mem_map.mp hl
    rw [← hrl, hfin r hr]
    rfl

theorem printed_and_buffered {env : Env} {urls : List String} {s : State}
    (hinv : Inv env urls s) (h : afterWait s.pc = true) :
    List.Perm (s.stdout ++ s.results.buf) (urls.map (outcome env)) := by
  obtain ⟨hlen, hflat⟩ := workers_done_of_afterWait hinv h
  have h8 := hinv.msgs
  rwa [hflat, List.append_nil, hlen, List.take_length] at h8

theorem writes_le {env : Env} {urls : List String} {s : State} (hinv : Inv env urls s) :
    s.writers.length + ((s.workers.map written).flatten).length = s.workers.length := by
  have hlen := hinv.msgs.length_eq
  have hle := hinv.spawnedLe
  have h15 := hinv.writersCount
  rw [List.length_map, List.length_take] at hlen
  simp only [List.length_append] at hlen
  omega

/-- C1. Under every schedule, whatever the environment returns for each target:
once `main` has returned, the lines it printed (the strings it received from
`results`, in order of receipt) are as many as the targets and are a permutation
of the outcomes of `fetchTitle` on the targets, one per occurrence, each being the
one string its run of `fetchTitle` writes. The run gets there: no reachable state
has panicked, in every reachable state in which `main` has not returned some
thread can move, and no schedule is longer than `14 * N + 5` steps. -/
theorem main_prints_each_outcome_once (env : Env) (urls : List String) (sched : List Nat)
    (s : State) (hexec : exec env urls sched = some s) :
    (s.pc = MainPc.exited →
        s.stdout.length = urls.length ∧ List.Perm s.stdout (urls.map (outcome env)))
      ∧ (∀ u ∈ urls, written (fetchTitle env u) = [outcome env u])
      ∧ s.fault = none
      ∧ (s.pc ≠ MainPc.exited → ∃ tid s', step env urls s tid = some s')
      ∧ sched.length ≤ 14 * urls.length + 5 := by
  have hinv := inv_exec hexec
  refine ⟨?_, fun u _ => written_fetchTitle env u, hinv.noFault, progress hinv, ?_⟩
  · intro hpc
    have hperm := printed_and_buffered hinv (by rw [hpc]; rfl)
    rw [hinv.drained hpc, List.append_nil] at hperm
    exact ⟨by rw [hperm.length_eq, List.length_map], hperm⟩
  · have h1 := measure_run (inv_init env urls) hexec
    have h2 := measure_init_le env urls
    omega

/-- The witness of C1: the three targets of the scenario, the goroutines finishing
in the order `b`, `c`, `a`. -/
theorem main_prints_each_outcome_once_witness :
    exec sampleEnv sampleUrls scheduleDone = some stateDone ∧
      stateDone.stdout.length = sampleUrls.length ∧
      List.Perm stateDone.stdout (sampleUrls.map (outcome sampleEnv)) :=
  ⟨rfl, (main_prints_each_outcome_once sampleEnv sampleUrls scheduleDone stateDone rfl).1 rfl⟩

/-- C9. In every reachable state the channel `results` has capacity `N`; the
sends completed so far are at most `N`, by distinct goroutines among those
started; the buffer holds no more strings than the capacity; and a goroutine whose
next call is its send finds room in the buffer and can make that call. -/
theorem results_never_full (env : Env) (urls : List String) (sched : List Nat) (s : State)
    (hexec : exec env urls sched = some s) :
    s.results.cap = urls.length
      ∧ s.writers.length ≤ urls.length
      ∧ s.writers.Nodup
      ∧ (∀ k ∈ s.writers, k < s.workers.length)
      ∧ s.workers.length ≤ urls.length
      ∧ s.results.buf.length ≤ s.results.cap
      ∧ (∀ k, atSend s k →
          s.results.buf.length < s.results.cap ∧ (step env urls s (k + 1)).isSome = true) := by
  have hinv := inv_exec hexec
  have hw := writes_le hinv
  have hle := hinv.spawnedLe
  have h15 := hinv.writersCount
  refine ⟨hinv.capEq, by omega, hinv.writersNodup, ?_, hle, by rw [hinv.capEq]; omega, ?_⟩
  · intro k hk
    obtain ⟨r, hr, -⟩ := hinv.writersDone k hk
    exact (List.getElem?_eq_some.mp hr).1
  · rintro k ⟨msg, rest, hk⟩
    refine ⟨room_of_send hinv hk, ?_⟩
    have hpc : s.pc ≠ MainPc.exited := by
      intro h
      have := (pc_of_active hinv hk).2
      rw [h] at this
      exact absurd this (by simp [afterWait])
    rw [step_succ hinv.noFault hpc, stepWorker_eq_pop hinv hk]
    rfl

/-- The witness of C9: the goroutine for `a` is about to send while the string of
the goroutine for `b` is in the buffer. -/
theorem results_never_full_witness :
    exec sampleEnv sampleUrls scheduleAtSend = some stateAtSend ∧
      atSend stateAtSend 0 ∧
      stateAtSend.results.buf.length < stateAtSend.results.cap ∧
      (step sampleEnv sampleUrls stateAtSend 1).isSome = true :=
  ⟨rfl, ⟨_, _, rfl⟩,
    (results_never_full sampleEnv sampleUrls scheduleAtSend stateAtSend rfl).2.2.2.2.2.2 0
      ⟨_, _, rfl⟩⟩

/-- C10. In every reachable state: if `results` is closed then all `N` sends have
completed and every goroutine has returned; `main` is in its receiving loop, or
has printed anything, only if `results` is closed; a goroutine whose next call is
its send finds `results` open, and no panic has occurred; and what the receiving
loop has printed together with what the buffer still holds is the whole set of
outcomes. -/
theorem results_closed_after_writes (env : Env) (urls : List String) (sched : List Nat)
    (s : State) (hexec : exec env urls sched = some s) :
    (s.results.closed = true →
        s.writers.length = urls.length ∧ ∀ r ∈ s.workers, r = [])
      ∧ (s.pc = MainPc.drain ∨ s.pc = MainPc.exited → s.results.closed = true)
      ∧ (s.stdout ≠ [] → s.results.closed = true)
      ∧ (∀ k, atSend s k → s.results.closed = false)
      ∧ s.fault = none
      ∧ (s.pc = MainPc.drain ∨ s.pc = MainPc.exited →
          List.Perm (s.stdout ++ s.results.buf) (urls.map (outcome env))) := by
  have hinv := inv_exec hexec
  have hbc : s.results.closed = true → afterWait s.pc = true := by
    intro hc
    cases hb : beforeClose s.pc with
    | true => rw [(hinv.notClosed hb).1] at hc; exact absurd hc (by simp)
    | false => cases hp : s.pc <;> simp_all [beforeClose, afterWait]
  have hstd : s.stdout ≠ [] → s.results.closed = true := by
    intro hne
    cases hb : beforeClose s.pc with
    | true => exact absurd (hinv.notClosed hb).2 hne
    | false => exact hinv.isClosed hb
  refine ⟨?_, ?_, hstd, ?_, hinv.noFault, ?_⟩
  · intro hc
    obtain ⟨hlen, hflat⟩ := workers_done_of_afterWait hinv (hbc hc)
    have hw := writes_le hinv
    rw [hflat, hlen] at hw
    exact ⟨by simpa using hw, hinv.finished (hbc hc)⟩
  · rintro (h | h) <;> exact hinv.isClosed (by rw [h]; rfl)
  · rintro k ⟨msg, rest, hk⟩
    exact (hinv.notClosed (pc_of_active hinv hk).1).1
  · rintro (h | h) <;> exact printed_and_buffered hinv (by rw [h]; rfl)

/-- The witness of C10: `main` in its receiving loop, two lines printed and one
string still in the buffer. -/
theorem results_closed_after_writes_witness :
    exec sampleEnv sampleUrls scheduleDraining = some stateDraining ∧
      stateDraining.results.closed = true ∧
      stateDraining.writers.length = sampleUrls.length ∧
      List.Perm (stateDraining.stdout ++ stateDraining.results.buf)
        (sampleUrls.map (outcome sampleEnv)) :=
  ⟨rfl, rfl,
    ((results_closed_after_writes sampleEnv sampleUrls scheduleDraining stateDraining rfl).1
      rfl).1,
    (results_closed_after_writes sampleEnv sampleUrls scheduleDraining stateDraining
      rfl).2.2.2.2.2 (Or.inl rfl)⟩

end Scrapper
